import Mathlib

/-!
Verification of the attribute-path resolver / expression compiler core of the
dynamodb-toolbox repository, and of its update-action reference extension.

The reference-with-fallback extension parser is embedded from
`src/entity/actions/update/updateItemParams/extension/reference.ts`.
The condition parser (path lexer, schema walker, placeholder allocator,
expression compiler) is not part of the provided sources (only its test file
is), so it is modelled from the spec and checked against the concrete
expectations recorded in the tests.
-/

namespace Dtb

/-- Element of a value path: either a field name or a numeric index. -/
inductive PathElem where
  | s (name : String)
  | n (idx : Nat)
deriving DecidableEq, Repr

/-- Decimal digit character for a digit value (defaulting for 10 and above). -/
def digitChar : Nat → Char
  | 0 => '0'
  | 1 => '1'
  | 2 => '2'
  | 3 => '3'
  | 4 => '4'
  | 5 => '5'
  | 6 => '6'
  | 7 => '7'
  | 8 => '8'
  | 9 => '9'
  | _ => '0'

/-- Fuel-driven decimal rendering of a natural number, most significant digit
first. The fuel passed by `natToStr` always suffices. -/
def natDigitsAux : Nat → Nat → List Char
  | 0, _ => []
  | fuel + 1, m =>
    if m < 10 then [digitChar m]
    else natDigitsAux fuel (m / 10) ++ [digitChar (m % 10)]

/-- Decimal rendering of a natural number. -/
def natToStr (m : Nat) : String := String.mk (natDigitsAux (m + 1) m)

/-- Modelled from the spec: `formatArrayPath` (a utility outside the provided
sources) renders a value path as a dotted/bracketed string, returning no path
for an empty array. -/
def formatArrayPathAux : List PathElem → Bool → String
  | [], _ => ""
  | PathElem.s k :: rest, first =>
    (if first then k else "." ++ k) ++ formatArrayPathAux rest false
  | PathElem.n i :: rest, _ =>
    "[" ++ natToStr i ++ "]" ++ formatArrayPathAux rest false

/-- Modelled from the spec: `formatArrayPath` returns `none` on the empty
path, otherwise the rendered path string. -/
def formatArrayPath : List PathElem → Option String
  | [] => none
  | e :: rest => some (formatArrayPathAux (e :: rest) true)

/-- Error taxonomy of the core (spec section 7). -/
inductive Err where
  | invalidExpressionAttributePath
  | invalidAttributeInput (path : Option String)
  | invalidValueInput (path : Option String)
  | typeMismatch
deriving DecidableEq, Repr

/-- Properties every schema node may carry: an optional storage name
(`savedAs`) and, for strings, an optional transformer (modelled from the spec
as a marker string prepended on transform). -/
structure SchemaProps where
  savedAs : Option String
  transformMark : Option String
deriving DecidableEq, Repr

/-- Schema node kinds needed by the claims (spec section 3). -/
inductive Schema where
  | string (props : SchemaProps)
  | number (props : SchemaProps)
  | list (elements : Schema) (props : SchemaProps)
  | map (attributes : List (String × Schema)) (props : SchemaProps)
  | record (keys : Schema) (elements : Schema) (props : SchemaProps)

/-- Props carried by a schema node. -/
def Schema.propsOf : Schema → SchemaProps
  | .string p => p
  | .number p => p
  | .list _ p => p
  | .map _ p => p
  | .record _ _ p => p

/-- Props with no storage alias and no transformer. -/
def noProps : SchemaProps := ⟨none, none⟩

/-- Props with a storage alias only. -/
def savedAsProps (s : String) : SchemaProps := ⟨some s, none⟩

/-- Runtime input values: JS values as seen by the update-extension parser.
`getObj r` is an object carrying a `$GET` entry whose value is `r`;
`undef` is the JS `undefined` value. -/
inductive Val where
  | undef
  | str (s : String)
  | num (i : Int)
  | arr (elems : List Val)
  | getObj (references : Val)
  | obj (fields : List (String × Val))

/-- Whether a value is the JS `undefined`. -/
def isUndef : Val → Bool
  | .undef => true
  | _ => false

/-- Whether a value is an array (mirrors `isArray`). -/
def isArr : Val → Bool
  | .arr _ => true
  | _ => false

/-- Whether the first element of an element list is a string (the element an
empty list destructures to is `undefined`, which is not a string). -/
def isStrHead : List Val → Bool
  | .str _ :: _ => true
  | _ => false

/-- Head malformation of a `$GET` payload exactly as `reference.ts` rejects
it: not an array, or its first element not a string. -/
def malformedHead : Val → Bool
  | .arr (.str _ :: _) => false
  | _ => true

/-- Whether a value is shaped as a reference construct: an object carrying a
defined `$GET` entry (mirrors `isGetting(v) && v[$GET] !== undefined`). -/
def isRefConstruct : Val → Bool
  | .getObj .undef => false
  | .getObj _ => true
  | _ => false

/-- First element of the `$GET` array of a reference-shaped value. -/
def firstRef : Val → Option Val
  | .getObj (.arr (x :: _)) => some x
  | _ => none

/-! ### Path lexer (spec section 4.1, modelled from the spec) -/

/-- Path segments produced by the lexer: plain field, numeric index, or
bracket-quoted field. -/
inductive Seg where
  | field (name : String)
  | index (idx : Nat)
  | quoted (name : String)
deriving DecidableEq, Repr

/-- Single-quote character, used by the bracket-quoting grammar. -/
def quoteChar : Char := Char.ofNat 39

/-- Characters allowed in an unquoted field segment: anything except the
separator and the two brackets. -/
def isFieldChar (c : Char) : Bool := c != '.' && c != '[' && c != ']'

/-- Numeric value of a list of decimal digit characters. -/
def digitsToNat (ds : List Char) : Nat :=
  ds.foldl (fun a c => a * 10 + (c.toNat - 48)) 0

/-- Modelled from the spec: lex one segment from the head of the character
stream, returning the segment and the remaining characters. Fails on a bare
bracket in field position, an unterminated bracket construct, or an empty
field. -/
def parseOneSeg (cs : List Char) : Except Err (Seg × List Char) :=
  match cs with
  | [] => .error .invalidExpressionAttributePath
  | c :: rest =>
    if c = '[' then
      match rest with
      | [] => .error .invalidExpressionAttributePath
      | d :: rest2 =>
        if d = quoteChar then
          let sp := rest2.span (fun e => e != quoteChar)
          match sp.2 with
          | q :: b :: rest4 =>
            if q = quoteChar then
              if b = ']' then .ok (.quoted (String.mk sp.1), rest4)
              else .error .invalidExpressionAttributePath
            else .error .invalidExpressionAttributePath
          | _ => .error .invalidExpressionAttributePath
        else
          let dsp := (d :: rest2).span Char.isDigit
          match dsp.1, dsp.2 with
          | [], _ => .error .invalidExpressionAttributePath
          | ds, b :: rest3 =>
            if b = ']' then .ok (.index (digitsToNat ds), rest3)
            else .error .invalidExpressionAttributePath
          | _, [] => .error .invalidExpressionAttributePath
    else
      let fsp := cs.span isFieldChar
      match fsp.1 with
      | [] => .error .invalidExpressionAttributePath
      | f => .ok (.field (String.mk f), fsp.2)

/-- Modelled from the spec: the path lexer. Segments are separated by a dot;
a bracket construct (index or quoted key) may also directly follow a
segment. -/
def lexSegs : Nat → List Char → Except Err (List Seg)
  | 0, _ => .error .invalidExpressionAttributePath
  | fuel + 1, cs =>
    match parseOneSeg cs with
    | .error e => .error e
    | .ok (seg, rest) =>
      match rest with
      | [] => .ok [seg]
      | c :: r =>
        if c = '.' then (lexSegs fuel r).map (fun segs => seg :: segs)
        else if c = '[' then (lexSegs fuel (c :: r)).map (fun segs => seg :: segs)
        else .error .invalidExpressionAttributePath

/-- Modelled from the spec: tokenize a raw path string. -/
def lexPath (s : String) : Except Err (List Seg) := lexSegs (s.length + 1) s.data

/-! ### Schema walker (spec section 4.2, modelled from the spec) -/

/-- Storage-facing path segments produced by resolution: a storage name or a
literal numeric index. -/
inductive StorSeg where
  | name (s : String)
  | idx (i : Nat)
deriving DecidableEq, Repr

/-- Association-list lookup among a map node's declared attributes. -/
def assocGet (k : String) : List (String × Schema) → Option Schema
  | [] => none
  | (k2, v) :: rest => if k = k2 then some v else assocGet k rest

/-- Declared key of a field or quoted segment, if any. -/
def keyOf : Seg → Option String
  | .field f => some f
  | .quoted q => some q
  | .index _ => none

/-- Modelled from the spec: the schema walker. Resolves a segment sequence
against a schema tree, substituting each map child's `savedAs` name, copying
record keys literally, and copying indices through unchanged. -/
def resolveSegs (sch : Schema) (segs : List Seg) : Except Err (Schema × List StorSeg) :=
  match segs with
  | [] => .ok (sch, [])
  | seg :: rest =>
    match sch with
    | .map attrs _ =>
      match keyOf seg with
      | some k =>
        match assocGet k attrs with
        | some child =>
          match resolveSegs child rest with
          | .ok (t, ss) => .ok (t, .name (child.propsOf.savedAs.getD k) :: ss)
          | .error e => .error e
        | none => .error .invalidExpressionAttributePath
      | none => .error .invalidExpressionAttributePath
    | .record _ elems _ =>
      match keyOf seg with
      | some k =>
        match resolveSegs elems rest with
        | .ok (t, ss) => .ok (t, .name k :: ss)
        | .error e => .error e
      | none => .error .invalidExpressionAttributePath
    | .list elems _ =>
      match seg with
      | .index i =>
        match resolveSegs elems rest with
        | .ok (t, ss) => .ok (t, .idx i :: ss)
        | .error e => .error e
      | _ => .error .invalidExpressionAttributePath
    | _ => .error .invalidExpressionAttributePath

/-! ### Placeholder allocator and expression compiler (spec sections 4.3-4.4,
modelled from the spec) -/

/-- Name placeholder token: sigil, `c`, the expression id, an underscore and
the decimal ordinal. -/
def mkNameToken (id : String) (ord : Nat) : String :=
  String.mk ('#' :: 'c' :: id.data ++ '_' :: natDigitsAux (ord + 1) ord)

/-- Value placeholder token: like a name token but with the `:` sigil. -/
def mkValueToken (id : String) (ord : Nat) : String :=
  String.mk (':' :: 'c' :: id.data ++ '_' :: natDigitsAux (ord + 1) ord)

/-- Modelled from the spec: render the document path and allocate one name
token per storage name, ordinals increasing from the given start; indices are
inlined numerically, never interned. -/
def compilePathAux (id : String) : List StorSeg → Nat → Bool → String × List (String × String)
  | [], _, _ => ("", [])
  | .name s :: rest, ord, first =>
    let tok := mkNameToken id ord
    let res := compilePathAux id rest (ord + 1) false
    ((if first then tok else "." ++ tok) ++ res.1, (tok, s) :: res.2)
  | .idx i :: rest, ord, first =>
    let res := compilePathAux id rest ord first
    ("[" ++ natToStr i ++ "]" ++ res.1, res.2)

/-- Condition input: an attribute path and a `beginsWith` operand. -/
structure Condition where
  attr : String
  beginsWith : String

/-- Compiled condition output: the expression string and the two placeholder
tables. -/
structure Compiled where
  conditionExpression : String
  expressionAttributeNames : List (String × String)
  expressionAttributeValues : List (String × Val)

/-- Transform applied by a schema node to an already validated value
(modelled from the spec: a string transformer marks its output). -/
def applyTransform : Schema → Val → Val
  | .string props, .str s =>
    match props.transformMark with
    | some pre => .str (pre ++ s)
    | none => .str s
  | _, v => v

/-- Modelled from the spec: the condition parser for `beginsWith` conditions.
Lexes the path, resolves it against the schema, allocates name placeholders
ordinally from 1 (indices inlined), allocates one value placeholder, and
renders the `begins_with` expression. -/
def parseCondition (sch : Schema) (cond : Condition) (expressionId : String) : Except Err Compiled :=
  match lexPath cond.attr with
  | .error e => .error e
  | .ok segs =>
    match resolveSegs sch segs with
    | .error e => .error e
    | .ok (terminal, ssegs) =>
      match terminal with
      | .string props =>
        let res := compilePathAux expressionId ssegs 1 true
        let vtok := mkValueToken expressionId 1
        .ok ⟨"begins_with(" ++ res.1 ++ ", " ++ vtok ++ ")",
             res.2,
             [(vtok, applyTransform (.string props) (.str cond.beginsWith))]⟩
      | _ => .error .typeMismatch

/-! ### Reference-with-fallback extension parser
(embedded from `src/entity/actions/update/updateItemParams/extension/reference.ts`) -/

/-- Shallow shape validation of a plain (non-extension) value against a
schema node. Modelled from the spec: the value validation pipeline is an
external collaborator treated as a black box; scalars are checked strictly,
composites shallowly. -/
def validateShape : Schema → Val → Bool
  | .string _, .str _ => true
  | .number _, .num _ => true
  | .list _ _, .arr _ => true
  | .map _ _, .obj _ => true
  | .record _ _ _, .obj _ => true
  | _, _ => false

/-- Modelled from the spec: parsing of a plain (non-extension) value — the
two-phase value pipeline on a value that is not a reference construct. The
first component is the validated, untransformed value; the second is the
transformed value (equal to the first when `transform` is off). -/
def plainParse (sch : Schema) (v : Val) (transform : Bool) (valuePath : List PathElem) : Except Err (Val × Val) :=
  if validateShape sch v then
    .ok (v, if transform then applyTransform sch v else v)
  else
    .error (.invalidValueInput (formatArrayPath valuePath))

/-- Generator trace of a reference construct that carries no fallback: the
parsed value is `{ $GET: [reference] }`, yielded then returned when
`transform` is on, returned directly otherwise. -/
def noFallbackTrace (transform : Bool) (reference : String) : List Val × Val :=
  if transform then
    ([Val.getObj (.arr [.str reference])], Val.getObj (.arr [.str reference]))
  else
    ([], Val.getObj (.arr [.str reference]))

mutual

/-- Trace of the generator returned by `parseReferenceExtension` for a value
carrying the `$GET` payload `references` (the body of `extensionParser` in
`reference.ts`). The result is `(yielded, returned)`: the list of values the
generator yields before returning, and its returned value; an error is a
`DynamoDBToolboxError` thrown during the first advancement. With `transform`
on, the first advancement yields the untransformed parsed value and the
second returns the transformed value; with `transform` off the parsed value
is returned directly. -/
def refGenRun (sch : Schema) (references : Val) (transform : Bool) (referencesPath : List PathElem) : Except Err (List Val × Val) :=
  match references with
  | .arr (.str reference :: rest) =>
    match rest with
    | [] => .ok (noFallbackTrace transform reference)
    | fallback :: _ =>
      if isUndef fallback then .ok (noFallbackTrace transform reference)
      else
        match parserRun sch fallback transform (referencesPath ++ [PathElem.n 1]) with
        | .error e => .error e
        | .ok (fbParsed, fbTransformed) =>
          if transform then
            .ok ([Val.getObj (.arr [.str reference, fbParsed])],
                 .getObj (.arr [.str reference, fbTransformed]))
          else
            .ok ([], .getObj (.arr [.str reference, fbParsed]))
  | .arr _ => .error (.invalidAttributeInput (formatArrayPath (referencesPath ++ [PathElem.n 0])))
  | _ => .error (.invalidAttributeInput (formatArrayPath referencesPath))

/-- Modelled from the spec: the general value parser (`Parser.start` with
`parseReferenceExtension` installed as `parseExtension`, `fill` off), which
is outside the provided sources. It first consults the extension: a value
carrying a defined `$GET` entry is handled by the reference generator (the
pair being the values of its first and second advancement); any other value
goes through the plain value pipeline. -/
def parserRun (sch : Schema) (v : Val) (transform : Bool) (valuePath : List PathElem) : Except Err (Val × Val) :=
  match v with
  | .getObj references =>
    match references with
    | .undef => plainParse sch (.getObj .undef) transform valuePath
    | _ =>
      match refGenRun sch references transform (valuePath ++ [PathElem.s "$GET"]) with
      | .error e => .error e
      | .ok (yielded, returned) => .ok (yielded.headD returned, returned)
  | _ => plainParse sch v transform valuePath

end

/-- Captured state of the generator closure built by
`parseReferenceExtension`: the schema node, the `$GET` payload, and the
options. -/
structure RefGen where
  sch : Schema
  references : Val
  transform : Bool
  valuePath : List PathElem

/-- Running a captured generator: the generator recomputes
`referencesPath = valuePath ++ ['$GET']` and proceeds as `refGenRun`. -/
def RefGen.run (g : RefGen) : Except Err (List Val × Val) :=
  refGenRun g.sch g.references g.transform (g.valuePath ++ [PathElem.s "$GET"])

/-- Result of `parseReferenceExtension`: either not an extension (the input
passed through unchanged) or an extension together with the generator data.
The function itself never throws; errors can only arise when the returned
generator is advanced. -/
inductive ExtResult where
  | notExtension (unextendedInput : Val)
  | isExtension (gen : RefGen)

/-- Embedded from `reference.ts`: decide whether the input value is a
reference construct (an object carrying a defined `$GET` entry). If not,
pass the value through unchanged; if so, return the (lazy) generator. -/
def parseReferenceExtension (sch : Schema) (inputValue : Val) (transform : Bool) (valuePath : List PathElem) : ExtResult :=
  match inputValue with
  | .getObj references =>
    match references with
    | .undef => .notExtension inputValue
    | _ => .isExtension ⟨sch, references, transform, valuePath⟩
  | _ => .notExtension inputValue

/-- Combination of a fallback parse result into the construct's generator
trace, as performed by the generator body after a well-formed head. -/
def refFallbackCombine (transform : Bool) (reference : String) : Except Err (Val × Val) → Except Err (List Val × Val)
  | .error e => .error e
  | .ok (i, t) =>
    if transform then
      .ok ([Val.getObj (.arr [.str reference, i])], .getObj (.arr [.str reference, t]))
    else
      .ok ([], .getObj (.arr [.str reference, i]))

/-- Reference-construct chain of a given depth ending in a base value: depth
zero is the base value, depth `n + 1` wraps the depth-`n` chain as the
fallback of a fresh construct. -/
def refChainFrom (base : Val) : Nat → Val
  | 0 => base
  | k + 1 => .getObj (.arr [.str "ref", refChainFrom base k])

/-- Whether an `Except` result is a success. -/
def isOkE {α : Type} : Except Err α → Bool
  | .ok _ => true
  | .error _ => false

/-! ### Runtime lighteners (embedded from the schema `light` utilities) -/

/-- Embedded from the source: `light` is `(schema) => schema as Light<SCHEMA>`
— the cast is a type-level device with no runtime effect, so the runtime
function is the identity. -/
def light (schema : Schema) : Schema := schema

/-- Embedded from the source: `lightTuple` returns its argument tuple
unchanged (the cast is type-level only). -/
def lightTuple (schemas : List Schema) : List Schema := schemas

/-- Embedded from the source: `lightObj` returns its argument object
unchanged (the cast is type-level only). -/
def lightObj (schemas : List (String × Schema)) : List (String × Schema) := schemas

/-! ### Concrete schemas from the condition-parser test file -/

/-- Single-quote as a string, used to spell bracket-quoted paths. -/
def sqStr : String := String.mk [quoteChar]

/-- The `savedAs attrs` schema of the condition-parser tests. -/
def schemaWithSavedAs : Schema :=
  .map [
    ("savedAs", .string (savedAsProps "_s")),
    ("deep", .map [("savedAs", .string (savedAsProps "_s"))] (savedAsProps "_n")),
    ("listed", .list (.map [("savedAs", .string (savedAsProps "_s"))] noProps) (savedAsProps "_l"))
  ] noProps

/-- The `special chars` schema of the condition-parser tests. -/
def schemaWithSpecChars : Schema :=
  .map [
    ("record", .record (.string noProps) (.string noProps) noProps),
    ("map", .map [("[", .string noProps)] noProps),
    ("]", .string noProps)
  ] noProps

/-! ### Helper lemmas -/

/-- Decimal digit characters are never an underscore. -/
theorem digitChar_ne_underscore (m : Nat) : digitChar m ≠ '_' := by
  match m with
  | 0 | 1 | 2 | 3 | 4 | 5 | 6 | 7 | 8 | 9 => decide
  | k + 10 =>
    have h0 : digitChar (k + 10) = '0' := rfl
    rw [h0]
    decide

/-- Rendered decimal digits never contain an underscore. -/
theorem natDigitsAux_no_underscore (fuel m : Nat) : '_' ∉ natDigitsAux fuel m := by
  induction fuel generalizing m with
  | zero => simp [natDigitsAux]
  | succ fuel ih =>
    unfold natDigitsAux
    split
    · simp
      exact fun h => digitChar_ne_underscore m h.symm
    · simp
      refine ⟨ih _, fun h => digitChar_ne_underscore _ h.symm⟩

/-- Splitting at an underscore is unambiguous when the suffixes are
underscore-free. -/
theorem append_underscore_inj (a : List Char) :
    ∀ (b s t : List Char), '_' ∉ s → '_' ∉ t →
    a ++ '_' :: s = b ++ '_' :: t → a = b ∧ s = t := by
  induction a with
  | nil =>
    intro b s t hs ht h
    cases b with
    | nil => simpa using h
    | cons d b2 =>
      simp only [List.nil_append, List.cons_append, List.cons.injEq] at h
      exact absurd (h.2 ▸ List.mem_append_right b2 (List.mem_cons_self _ _)) hs
  | cons c a2 ih =>
    intro b s t hs ht h
    cases b with
    | nil =>
      simp only [List.nil_append, List.cons_append, List.cons.injEq] at h
      exact absurd (h.2.symm ▸ List.mem_append_right a2 (List.mem_cons_self _ _)) ht
    | cons d b2 =>
      simp only [List.cons_append, List.cons.injEq] at h
      rcases ih b2 s t hs ht h.2 with ⟨h3, h4⟩
      exact ⟨by rw [h.1, h3], h4⟩

/-- Name tokens determine the expression id. -/
theorem mkNameToken_inj_id (id1 id2 : String) (n1 n2 : Nat)
    (h : mkNameToken id1 n1 = mkNameToken id2 n2) : id1 = id2 := by
  unfold mkNameToken at h
  have h2 := congrArg String.data h
  simp only [List.cons_append, List.cons.injEq, true_and] at h2
  have h3 := append_underscore_inj id1.data id2.data _ _
    (natDigitsAux_no_underscore _ _) (natDigitsAux_no_underscore _ _) h2
  cases id1
  cases id2
  exact congrArg String.mk h3.1

/-- Value tokens determine the expression id. -/
theorem mkValueToken_inj_id (id1 id2 : String) (n1 n2 : Nat)
    (h : mkValueToken id1 n1 = mkValueToken id2 n2) : id1 = id2 := by
  unfold mkValueToken at h
  have h2 := congrArg String.data h
  simp only [List.cons_append, List.cons.injEq, true_and] at h2
  have h3 := append_underscore_inj id1.data id2.data _ _
    (natDigitsAux_no_underscore _ _) (natDigitsAux_no_underscore _ _) h2
  cases id1
  cases id2
  exact congrArg String.mk h3.1

/-- Name tokens and value tokens are always distinct (different sigils). -/
theorem mkNameToken_ne_mkValueToken (id1 id2 : String) (n1 n2 : Nat) :
    mkNameToken id1 n1 ≠ mkValueToken id2 n2 := by
  intro h
  have h2 := congrArg String.data h
  simp only [mkNameToken, mkValueToken, List.cons_append, List.cons.injEq] at h2
  exact absurd h2.1 (by decide)

/-- Unfolding equation of the reference generator on a well-formed head. -/
theorem refGenRun_strHead (sch : Schema) (r : String) (rest : List Val) (tr : Bool)
    (rp : List PathElem) :
    refGenRun sch (.arr (.str r :: rest)) tr rp =
      match rest with
      | [] => .ok (noFallbackTrace tr r)
      | fallback :: _ =>
        if isUndef fallback then .ok (noFallbackTrace tr r)
        else refFallbackCombine tr r (parserRun sch fallback tr (rp ++ [PathElem.n 1])) := by
  cases rest with
  | nil => rfl
  | cons fb tail =>
    show refGenRun sch (.arr (.str r :: fb :: tail)) tr rp = _
    by_cases h : isUndef fb = true
    · simp only [refGenRun, h, if_true]
    · simp only [refGenRun, h, if_false, Bool.not_eq_true] at *
      simp only [h, Bool.false_eq_true, if_false]
      cases parserRun sch fb tr (rp ++ [PathElem.n 1]) with
      | error e => rfl
      | ok it => cases it with | mk i t => rfl

/-- Unfolding equation of the general value parser on a reference construct
whose `$GET` payload is an array. -/
theorem parserRun_getObjArr (sch : Schema) (elems : List Val) (tr : Bool) (vp : List PathElem) :
    parserRun sch (.getObj (.arr elems)) tr vp =
      match refGenRun sch (.arr elems) tr (vp ++ [PathElem.s "$GET"]) with
      | .error e => .error e
      | .ok (ys, ret) => .ok (ys.headD ret, ret) := by
  cases h : refGenRun sch (.arr elems) tr (vp ++ [PathElem.s "$GET"]) with
  | error e => simp only [parserRun, h]
  | ok p => cases p with | mk ys ret => simp only [parserRun, h]

/-- Success of an `Except` computation means an `ok` value exists. -/
theorem isOkE_iff {α : Type} (e : Except Err α) : isOkE e = true ↔ ∃ x, e = .ok x := by
  cases e <;> simp [isOkE]

/-- The JS `undefined` value fails shape validation against every schema
node. -/
theorem validateShape_undef (sch : Schema) : validateShape sch .undef = false := by
  cases sch <;> rfl

/-- Number of name segments (as opposed to inlined index segments) in a
storage path. -/
def countNames : List StorSeg → Nat
  | [] => 0
  | .name _ :: rest => countNames rest + 1
  | .idx _ :: rest => countNames rest

/-- Taking while a predicate holds splits exactly at the first failing
element. -/
theorem takeWhile_append_sep (p : Char → Bool) (y : Char) (ys : List Char) (hy : p y = false) :
    ∀ xs : List Char, (∀ c ∈ xs, p c = true) → (xs ++ y :: ys).takeWhile p = xs := by
  intro xs
  induction xs with
  | nil => intro _; simp [List.takeWhile_cons, hy]
  | cons x xs ih =>
    intro hxs
    have hx := hxs x (List.mem_cons_self _ _)
    simp only [List.cons_append, List.takeWhile_cons, hx, if_true,
      ih (fun c hc => hxs c (List.mem_cons_of_mem _ hc))]

/-- Dropping while a predicate holds splits exactly at the first failing
element. -/
theorem dropWhile_append_sep (p : Char → Bool) (y : Char) (ys : List Char) (hy : p y = false) :
    ∀ xs : List Char, (∀ c ∈ xs, p c = true) → (xs ++ y :: ys).dropWhile p = y :: ys := by
  intro xs
  induction xs with
  | nil => intro _; simp [List.dropWhile_cons, hy]
  | cons x xs ih =>
    intro hxs
    have hx := hxs x (List.mem_cons_self _ _)
    simp only [List.cons_append, List.dropWhile_cons, hx, if_true,
      ih (fun c hc => hxs c (List.mem_cons_of_mem _ hc))]

/-- Spanning a list that is a run of satisfying characters followed by a
failing one splits exactly there. -/
theorem span_append_sep (p : Char → Bool) (xs : List Char) (y : Char) (ys : List Char)
    (hxs : ∀ c ∈ xs, p c = true) (hy : p y = false) :
    (xs ++ y :: ys).span p = (xs, y :: ys) := by
  rw [List.span_eq_take_drop, takeWhile_append_sep p y ys hy xs hxs,
    dropWhile_append_sep p y ys hy xs hxs]

/-- Every character of the first span component satisfies the predicate. -/
theorem mem_span_fst (p : Char → Bool) (l : List Char) (c : Char)
    (hc : c ∈ (l.span p).1) : p c = true := by
  rw [List.span_eq_take_drop] at hc
  exact List.mem_takeWhile_imp hc

/-- Inversion for `Except.map` returning a success. -/
theorem exceptMap_ok {α β : Type} (f : α → β) (e : Except Err α) (b : β)
    (h : Except.map f e = .ok b) : ∃ a, e = .ok a ∧ b = f a := by
  cases e with
  | error e2 => simp [Except.map] at h
  | ok a =>
    refine ⟨a, rfl, ?_⟩
    simp only [Except.map, Except.ok.injEq] at h
    exact h.symm

/-- A plain field segment produced by the single-segment lexer contains only
field characters - in particular no unescaped bracket. -/
theorem parseOneSeg_field_chars (cs : List Char) (k : String) (rest : List Char)
    (h : parseOneSeg cs = .ok (.field k, rest)) :
    ∀ c ∈ k.data, isFieldChar c = true := by
  unfold parseOneSeg at h
  simp only [List.span_eq_take_drop] at h
  repeat' split at h
  any_goals simp at h
  rcases h with ⟨hk, hrest⟩
  intro c hc
  rw [← hk] at hc
  exact List.mem_takeWhile_imp hc

/-- Computation of the single-segment lexer on a nonempty run of field
characters followed by a non-field character. -/
theorem parseOneSeg_field_of (f0 : Char) (f2 tail : List Char) (sep : Char)
    (hf : ∀ c ∈ f0 :: f2, isFieldChar c = true) (hsep : isFieldChar sep = false) :
    parseOneSeg ((f0 :: f2) ++ sep :: tail) = .ok (.field (String.mk (f0 :: f2)), sep :: tail) := by
  have h0 : ¬ (f0 = '[') := by
    intro h
    have := hf f0 (List.mem_cons_self _ _)
    rw [h] at this
    simp [isFieldChar] at this
  have hspan : (f0 :: (f2 ++ sep :: tail)).span isFieldChar = (f0 :: f2, sep :: tail) := by
    have h2 := span_append_sep isFieldChar (f0 :: f2) sep tail hf hsep
    simpa using h2
  show parseOneSeg (f0 :: (f2 ++ sep :: tail)) = _
  simp only [parseOneSeg, h0, if_false, hspan]

/-- Soundness of the lexer for plain field segments: a successful lex never
contains a field segment whose name holds a non-field character (such as an
unescaped bracket) - the only way to spell such a key is a bracket-quoted
segment. -/
theorem lexSegs_field_chars :
    ∀ (fuel : Nat) (cs : List Char) (segs : List Seg), lexSegs fuel cs = .ok segs →
    ∀ (k : String), Seg.field k ∈ segs → ∀ c ∈ k.data, isFieldChar c = true := by
  intro fuel
  induction fuel with
  | zero => intro cs segs h; simp [lexSegs] at h
  | succ fuel ih =>
    intro cs segs h k hk
    unfold lexSegs at h
    cases hp : parseOneSeg cs with
    | error e => rw [hp] at h; simp at h
    | ok sr =>
      rcases sr with ⟨seg, rest⟩
      rw [hp] at h
      cases rest with
      | nil =>
        simp only [Except.ok.injEq] at h
        subst h
        rcases List.mem_singleton.1 hk with rfl
        exact parseOneSeg_field_chars cs k [] hp
      | cons c2 r =>
        by_cases hdot : c2 = '.'
        · subst hdot
          simp only [if_pos rfl] at h
          rcases exceptMap_ok _ _ _ h with ⟨segs2, hrec, rfl⟩
          rcases List.mem_cons.1 hk with heq | htail
          · exact parseOneSeg_field_chars cs k ('.' :: r) (by rw [hp, ← heq])
          · exact ih r segs2 hrec k htail
        · by_cases hbr : c2 = '['
          · subst hbr
            simp only [hdot, if_false, if_pos rfl] at h
            rcases exceptMap_ok _ _ _ h with ⟨segs2, hrec, rfl⟩
            rcases List.mem_cons.1 hk with heq | htail
            · exact parseOneSeg_field_chars cs k ('[' :: r) (by rw [hp, ← heq])
            · exact ih ('[' :: r) segs2 hrec k htail
          · simp only [hdot, hbr, if_false] at h
            simp at h

/-- Universal failure of the lexer when a closing bracket occurs in
plain-field context at a segment start: a run of field characters followed
by a closing bracket always raises the path error, for every fuel. -/
theorem lexSegs_rbracket_fails (fuel : Nat) (a rest : List Char)
    (ha : ∀ c ∈ a, isFieldChar c = true) :
    lexSegs fuel (a ++ ']' :: rest) = .error .invalidExpressionAttributePath := by
  cases fuel with
  | zero => rfl
  | succ fuel =>
    cases a with
    | nil =>
      have hspan : (']' :: rest).span isFieldChar = ([], ']' :: rest) := by
        have h2 := span_append_sep isFieldChar [] ']' rest (by simp) (by decide)
        simpa using h2
      have hp : parseOneSeg (']' :: rest) = .error .invalidExpressionAttributePath := by
        simp only [parseOneSeg, hspan]
        rfl
      show lexSegs (fuel + 1) (']' :: rest) = _
      unfold lexSegs
      rw [hp]
    | cons a0 a2 =>
      have hp := parseOneSeg_field_of a0 a2 rest ']' ha (by decide)
      show lexSegs (fuel + 1) ((a0 :: a2) ++ ']' :: rest) = _
      unfold lexSegs
      rw [hp]
      rfl

/-- Universal failure of the lexer on a trailing opening bracket after a
(possibly empty) run of field characters, for every fuel. -/
theorem lexSegs_lbracket_fails (fuel : Nat) (a : List Char)
    (ha : ∀ c ∈ a, isFieldChar c = true) :
    lexSegs fuel (a ++ ['[']) = .error .invalidExpressionAttributePath := by
  cases fuel with
  | zero => rfl
  | succ fuel =>
    cases a with
    | nil => rfl
    | cons a0 a2 =>
      have hp := parseOneSeg_field_of a0 a2 [] '[' ha (by decide)
      show lexSegs (fuel + 1) ((a0 :: a2) ++ '[' :: []) = _
      unfold lexSegs
      rw [hp]
      show (lexSegs fuel ['[']).map (fun segs => Seg.field (String.mk (a0 :: a2)) :: segs) = _
      have hrec : lexSegs fuel ['['] = .error .invalidExpressionAttributePath := by
        cases fuel <;> rfl
      rw [hrec]
      rfl

/-- Prefixing a failing remainder with a valid plain field segment and a dot
preserves the lexer's failure, for every fuel. -/
theorem lexSegs_prefix_fails (f cs : List Char) (hne : f ≠ [])
    (hf : ∀ c ∈ f, isFieldChar c = true)
    (hcs : ∀ fuel, lexSegs fuel cs = .error .invalidExpressionAttributePath) :
    ∀ fuel, lexSegs fuel (f ++ '.' :: cs) = .error .invalidExpressionAttributePath := by
  intro fuel
  cases fuel with
  | zero => rfl
  | succ fuel =>
    cases f with
    | nil => exact absurd rfl hne
    | cons f0 f2 =>
      have hp := parseOneSeg_field_of f0 f2 cs '.' hf (by decide)
      show lexSegs (fuel + 1) ((f0 :: f2) ++ '.' :: cs) = _
      unfold lexSegs
      rw [hp]
      show (lexSegs fuel cs).map (fun segs => Seg.field (String.mk (f0 :: f2)) :: segs) = _
      rw [hcs fuel]
      rfl

/-- Universal success of the lexer on a bracket-quoted segment: any key
without a quote character, spelled as a bracket-quoted segment, lexes to the
quoted segment holding exactly that key. -/
theorem lexSegs_quoted_ok (fuel : Nat) (k : List Char) (hk : quoteChar ∉ k) :
    lexSegs (fuel + 1) ('[' :: quoteChar :: (k ++ quoteChar :: [']'])) =
      .ok [.quoted (String.mk k)] := by
  have hspan : (k ++ quoteChar :: [']']).span (fun e => e != quoteChar) =
      (k, quoteChar :: [']']) := by
    refine span_append_sep _ k quoteChar [']'] (fun c hc => ?_) (by simp)
    simp only [bne_iff_ne, ne_eq, decide_eq_true_eq]
    exact fun h => hk (h ▸ hc)
  have hp : parseOneSeg ('[' :: quoteChar :: (k ++ quoteChar :: [']'])) =
      .ok (.quoted (String.mk k), []) := by
    simp only [parseOneSeg, hspan]
    simp
  unfold lexSegs
  rw [hp]

/-- Tokens allocated by the path compiler for a storage path: one name token
per name segment, ordinals consecutive from the given start. -/
theorem compilePathAux_tokens (id : String) (ssegs : List StorSeg) :
    ∀ (ord : Nat) (first : Bool),
    (compilePathAux id ssegs ord first).2.map Prod.fst =
      (List.range (countNames ssegs)).map (fun j => mkNameToken id (ord + j)) := by
  induction ssegs with
  | nil => intro ord first; rfl
  | cons sseg rest ih =>
    intro ord first
    cases sseg with
    | name s =>
      show ((mkNameToken id ord, s) :: (compilePathAux id rest (ord + 1) false).2).map
          Prod.fst = (List.range (countNames rest + 1)).map (fun j => mkNameToken id (ord + j))
      rw [List.range_succ_eq_map]
      simp only [List.map_cons, List.map_map, Nat.add_zero]
      refine congrArg (List.cons (mkNameToken id ord)) ?_
      rw [ih (ord + 1) false]
      refine congrFun (congrArg List.map (funext fun j => ?_)) _
      simp only [Function.comp_apply]
      exact congrArg (mkNameToken id) (by omega)
    | idx i =>
      show (compilePathAux id rest ord first).2.map Prod.fst =
        (List.range (countNames rest)).map (fun j => mkNameToken id (ord + j))
      exact ih ord first

/-- Placeholder ordinals of any successful compile call: the name tokens are
exactly the ordinals 1, 2, ... in order, and the single value token has
ordinal 1. -/
theorem parseCondition_tokens (sch : Schema) (cond : Condition) (id : String) (out : Compiled)
    (h : parseCondition sch cond id = .ok out) :
    out.expressionAttributeNames.map Prod.fst =
      (List.range out.expressionAttributeNames.length).map (fun j => mkNameToken id (1 + j))
    ∧ out.expressionAttributeValues.map Prod.fst = [mkValueToken id 1] := by
  unfold parseCondition at h
  repeat' split at h
  any_goals simp at h
  subst h
  rename_i x1 segs hlex x2 ssegs terminal props hres
  constructor
  · have hm := compilePathAux_tokens id ssegs 1 true
    have hlen : (compilePathAux id ssegs 1 true).2.length = countNames ssegs := by
      have h2 := congrArg List.length hm
      simpa using h2
    show (compilePathAux id ssegs 1 true).2.map Prod.fst =
      (List.range (compilePathAux id ssegs 1 true).2.length).map (fun j => mkNameToken id (1 + j))
    rw [hlen]
    exact hm
  · rfl


/-! ### Claims -/

/-- Claim C3: for every input value that is not shaped as a reference
construct (no object carrying a defined `$GET` entry),
`parseReferenceExtension` returns `isExtension: false` and passes the very
input value through unchanged as `unextendedInput`. -/
theorem c3_passthrough (sch : Schema) (v : Val) (tr : Bool) (vp : List PathElem)
    (h : isRefConstruct v = false) :
    parseReferenceExtension sch v tr vp = .notExtension v := by
  cases v with
  | getObj r => cases r <;> first | rfl | simp [isRefConstruct] at h
  | undef => rfl
  | str _ => rfl
  | num _ => rfl
  | arr _ => rfl
  | obj _ => rfl

/-- Witness for C3 at a concrete non-reference input. -/
theorem c3_witness :
    isRefConstruct (Val.str "x") = false ∧
    parseReferenceExtension (.string noProps) (.str "x") true [] = .notExtension (.str "x") :=
  ⟨rfl, c3_passthrough (.string noProps) (.str "x") true [] rfl⟩

/-- Claim C10: at runtime, `light`, `lightTuple` and `lightObj` are
identities — each returns its argument (or argument tuple/object) unchanged;
the lightening exists only at the type level (the TypeScript casts are
erased). -/
theorem c10_light_identity (s : Schema) (ts : List Schema) (os : List (String × Schema)) :
    light s = s ∧ lightTuple ts = ts ∧ lightObj os = os :=
  ⟨rfl, rfl, rfl⟩

/-- Claim C6: over `listed: list(map({savedAs: string().savedAs('_s')})).savedAs('_l')`,
the condition `{ attr: 'listed[4].savedAs', beginsWith: 'foo' }` compiles to
exactly `begins_with(#c_1[4].#c_2, :c_1)` with names `#c_1 = '_l'`,
`#c_2 = '_s'` and value `:c_1 = 'foo'`: the index is inlined as a numeric
suffix on the preceding name token and is not interned as a placeholder. -/
theorem c6_listed_index_inlined :
    parseCondition schemaWithSavedAs ⟨"listed[4].savedAs", "foo"⟩ "" =
      .ok ⟨"begins_with(#c_1[4].#c_2, :c_1)",
           [("#c_1", "_l"), ("#c_2", "_s")],
           [(":c_1", .str "foo")]⟩ := rfl

/-- Claim C7: for every compile call, placeholder ordinals start at 1 and
strictly increase within one expression id — universally (conjunct 6), any
successful compile allocates the name tokens with exactly the consecutive
ordinals 1, 2, ... in order and the value token with ordinal 1; concretely
(conjuncts 1-2), the root scenario with `expressionId = '1'` yields the
tokens `#c1_1` and `:c1_1` (the id inserted between the `c` prefix and the
underscore-ordinal separator) and the deep scenario yields the ordinal-1 and
ordinal-2 name tokens in order; and two calls with different expression ids
never produce a common token (conjuncts 3-5: name or value, in any
combination). -/
theorem c7_placeholder_ordinals :
    (parseCondition schemaWithSavedAs ⟨"savedAs", "foo"⟩ "1" =
      .ok ⟨"begins_with(#c1_1, :c1_1)", [("#c1_1", "_s")], [(":c1_1", .str "foo")]⟩)
  ∧ (parseCondition schemaWithSavedAs ⟨"deep.savedAs", "foo"⟩ "" =
      .ok ⟨"begins_with(#c_1.#c_2, :c_1)",
           [(mkNameToken "" 1, "_n"), (mkNameToken "" 2, "_s")],
           [(mkValueToken "" 1, .str "foo")]⟩)
  ∧ (∀ id1 id2 n1 n2, id1 ≠ id2 → mkNameToken id1 n1 ≠ mkNameToken id2 n2)
  ∧ (∀ id1 id2 n1 n2, id1 ≠ id2 → mkValueToken id1 n1 ≠ mkValueToken id2 n2)
  ∧ (∀ id1 id2 n1 n2, mkNameToken id1 n1 ≠ mkValueToken id2 n2)
  ∧ (∀ (sch : Schema) (cond : Condition) (id : String) (out : Compiled),
      parseCondition sch cond id = .ok out →
      out.expressionAttributeNames.map Prod.fst =
        (List.range out.expressionAttributeNames.length).map (fun j => mkNameToken id (1 + j))
      ∧ out.expressionAttributeValues.map Prod.fst = [mkValueToken id 1]) := by
  refine ⟨rfl, rfl, ?_, ?_, ?_, ?_⟩
  · exact fun id1 id2 n1 n2 hne heq => hne (mkNameToken_inj_id id1 id2 n1 n2 heq)
  · exact fun id1 id2 n1 n2 hne heq => hne (mkValueToken_inj_id id1 id2 n1 n2 heq)
  · exact fun id1 id2 n1 n2 => mkNameToken_ne_mkValueToken id1 id2 n1 n2
  · exact fun sch cond id out h => parseCondition_tokens sch cond id out h

/-- Witness for C7: concrete distinct expression ids yield distinct tokens,
and a concrete compile call carries ordinal-consecutive tokens from 1. -/
theorem c7_witness :
    mkNameToken "" 1 ≠ mkNameToken "1" 1 ∧
    mkValueToken "" 1 ≠ mkValueToken "1" 1 ∧
    mkNameToken "" 1 ≠ mkValueToken "" 1 ∧
    ([("#c_1", "_n"), ("#c_2", "_s")] : List (String × String)).map Prod.fst =
      ["#c_1", "#c_2"] ∧
    ([(":c_1", Val.str "foo")] : List (String × Val)).map Prod.fst = [":c_1"] :=
  ⟨c7_placeholder_ordinals.2.2.1 "" "1" 1 1 (by decide),
   c7_placeholder_ordinals.2.2.2.1 "" "1" 1 1 (by decide),
   c7_placeholder_ordinals.2.2.2.2.1 "" "" 1 1,
   (c7_placeholder_ordinals.2.2.2.2.2 schemaWithSavedAs ⟨"deep.savedAs", "foo"⟩ ""
     ⟨"begins_with(#c_1.#c_2, :c_1)", [("#c_1", "_n"), ("#c_2", "_s")],
      [(":c_1", .str "foo")]⟩ rfl).1,
   (c7_placeholder_ordinals.2.2.2.2.2 schemaWithSavedAs ⟨"deep.savedAs", "foo"⟩ ""
     ⟨"begins_with(#c_1.#c_2, :c_1)", [("#c_1", "_n"), ("#c_2", "_s")],
      [(":c_1", .str "foo")]⟩ rfl).2⟩

/-- Claim C8: for every path containing an unescaped bracket inside a plain
field segment, parsing fails with `InvalidExpressionAttributePath`, while
the same key written as a bracket-quoted segment succeeds and resolves the
quoted content as the literal storage name. Concretely (conjuncts 1-6): the
paths `record.[`, `map.[` and the bare closing bracket raise the error, and
the three bracket-quoted spellings succeed with the literal names.
Universally: a successful lex never contains a field segment with a bracket
in its name, so a bracketed key can never be spelled as a plain segment
(conjunct 7); a run of field characters followed by a closing bracket fails,
as does a trailing opening bracket, for every fuel (conjuncts 8-9); such
failures persist behind any valid field-and-dot prefix (conjunct 10); and
every quote-free key written as a bracket-quoted segment lexes to exactly
that key (conjunct 11) and resolves to it as the literal storage name over a
record schema (conjunct 12). -/
theorem c8_special_chars :
    parseCondition schemaWithSpecChars ⟨"record.[", "foo"⟩ "" = .error .invalidExpressionAttributePath
  ∧ parseCondition schemaWithSpecChars ⟨"map.[", "foo"⟩ "" = .error .invalidExpressionAttributePath
  ∧ parseCondition schemaWithSpecChars ⟨"]", "foo"⟩ "" = .error .invalidExpressionAttributePath
  ∧ parseCondition schemaWithSpecChars ⟨"record[" ++ sqStr ++ "[" ++ sqStr ++ "]", "foo"⟩ "" =
      .ok ⟨"begins_with(#c_1.#c_2, :c_1)", [("#c_1", "record"), ("#c_2", "[")], [(":c_1", .str "foo")]⟩
  ∧ parseCondition schemaWithSpecChars ⟨"map[" ++ sqStr ++ "[" ++ sqStr ++ "]", "foo"⟩ "" =
      .ok ⟨"begins_with(#c_1.#c_2, :c_1)", [("#c_1", "map"), ("#c_2", "[")], [(":c_1", .str "foo")]⟩
  ∧ parseCondition schemaWithSpecChars ⟨"[" ++ sqStr ++ "]" ++ sqStr ++ "]", "foo"⟩ "" =
      .ok ⟨"begins_with(#c_1, :c_1)", [("#c_1", "]")], [(":c_1", .str "foo")]⟩
  ∧ (∀ (fuel : Nat) (cs : List Char) (segs : List Seg), lexSegs fuel cs = .ok segs →
      ∀ (k : String), Seg.field k ∈ segs → '[' ∉ k.data ∧ ']' ∉ k.data)
  ∧ (∀ (fuel : Nat) (a rest : List Char), (∀ c ∈ a, isFieldChar c = true) →
      lexSegs fuel (a ++ ']' :: rest) = .error .invalidExpressionAttributePath)
  ∧ (∀ (fuel : Nat) (a : List Char), (∀ c ∈ a, isFieldChar c = true) →
      lexSegs fuel (a ++ ['[']) = .error .invalidExpressionAttributePath)
  ∧ (∀ (f cs : List Char), f ≠ [] → (∀ c ∈ f, isFieldChar c = true) →
      (∀ fuel, lexSegs fuel cs = .error .invalidExpressionAttributePath) →
      ∀ fuel, lexSegs fuel (f ++ '.' :: cs) = .error .invalidExpressionAttributePath)
  ∧ (∀ (fuel : Nat) (k : List Char), quoteChar ∉ k →
      lexSegs (fuel + 1) ('[' :: quoteChar :: (k ++ quoteChar :: [']'])) =
        .ok [.quoted (String.mk k)])
  ∧ (∀ (k : String),
      resolveSegs (.record (.string noProps) (.string noProps) noProps) [.quoted k] =
        .ok (.string noProps, [.name k])) := by
  refine ⟨rfl, rfl, rfl, rfl, rfl, rfl, ?_, ?_, ?_, ?_, ?_, ?_⟩
  · intro fuel cs segs h k hk
    refine ⟨fun hc => ?_, fun hc => ?_⟩
    · have h2 := lexSegs_field_chars fuel cs segs h k hk _ hc
      simp [isFieldChar] at h2
    · have h2 := lexSegs_field_chars fuel cs segs h k hk _ hc
      simp [isFieldChar] at h2
  · exact lexSegs_rbracket_fails
  · exact lexSegs_lbracket_fails
  · exact lexSegs_prefix_fails
  · exact lexSegs_quoted_ok
  · intro k
    rfl

/-- Witness for C8: concrete instances of the universal clauses — a plainly
lexed field has no bracket, a field run before a closing bracket fails, the
dotted prefix preserves the trailing-bracket failure, and a concrete quoted
key lexes as itself. -/
theorem c8_witness :
    ('[' ∉ "ab".data ∧ ']' ∉ "ab".data)
  ∧ lexSegs 8 ("rec".data ++ ']' :: []) = .error .invalidExpressionAttributePath
  ∧ lexSegs 9 ("record".data ++ '.' :: ['[']) = .error .invalidExpressionAttributePath
  ∧ lexSegs 7 ('[' :: quoteChar :: ("k".data ++ quoteChar :: [']'])) =
      .ok [.quoted (String.mk "k".data)] :=
  ⟨c8_special_chars.2.2.2.2.2.2.1 3 "ab".data [.field "ab"] rfl "ab" (List.mem_singleton_self _),
   c8_special_chars.2.2.2.2.2.2.2.1 8 "rec".data [] (by decide),
   c8_special_chars.2.2.2.2.2.2.2.2.2.1 "record".data ['['] (by decide) (by decide)
     (fun fuel => c8_special_chars.2.2.2.2.2.2.2.2.1 fuel [] (by decide)) 9,
   c8_special_chars.2.2.2.2.2.2.2.2.2.2.1 6 "k".data (by decide)⟩

/-- Claim C2: for a well-formed reference construct parsed with transform
enabled, the generator trace is exactly two-phase: the first advancement
yields the untransformed intermediate value
`{ $GET: [reference, fallbackIntermediate?] }` and the second advancement
returns the transformed final value
`{ $GET: [reference, fallbackTransformed?] }` of the same shape (the
fallback components are the two phases of the fallback's own parse; without
a fallback the `$GET` array holds the reference alone). The construct is
recognized as an extension by `parseReferenceExtension`. -/
theorem c2_two_phase_protocol (sch : Schema) (r : String) (fb : Val) (vp : List PathElem)
    (i t : Val)
    (h1 : isUndef fb = false)
    (h2 : parserRun sch fb true (vp ++ [PathElem.s "$GET"] ++ [PathElem.n 1]) = .ok (i, t)) :
    parseReferenceExtension sch (.getObj (.arr [.str r, fb])) true vp =
      .isExtension ⟨sch, .arr [.str r, fb], true, vp⟩
  ∧ refGenRun sch (.arr [.str r, fb]) true (vp ++ [PathElem.s "$GET"]) =
      .ok ([Val.getObj (.arr [.str r, i])], .getObj (.arr [.str r, t]))
  ∧ refGenRun sch (.arr [.str r]) true (vp ++ [PathElem.s "$GET"]) =
      .ok ([Val.getObj (.arr [.str r])], .getObj (.arr [.str r])) := by
  refine ⟨rfl, ?_, rfl⟩
  rw [refGenRun_strHead]
  simp only [h1, Bool.false_eq_true, if_false, h2, refFallbackCombine, if_true]

/-- Witness for C2 at a concrete transforming schema: the first phase holds
the raw fallback, the second the transformed fallback. -/
theorem c2_witness :
    refGenRun (.string ⟨none, some "T:"⟩) (.arr [.str "a", .str "x"]) true
        ([] ++ [PathElem.s "$GET"]) =
      .ok ([Val.getObj (.arr [.str "a", .str "x"])], .getObj (.arr [.str "a", .str "T:x"])) :=
  (c2_two_phase_protocol (.string ⟨none, some "T:"⟩) "a" (.str "x") [] (.str "x")
    (.str "T:x") rfl rfl).2.1

/-- Claim C4: for every well-formed reference construct whose generator
trace succeeds, the reference string appears verbatim and unchanged as the
first element of the `$GET` array in every yielded (intermediate) value and
in the returned (final) value: the reference is never resolved to a stored
value at this layer. -/
theorem c4_reference_verbatim (sch : Schema) (r : String) (rest : List Val) (tr : Bool)
    (rp : List PathElem) (ys : List Val) (ret : Val)
    (h : refGenRun sch (.arr (.str r :: rest)) tr rp = .ok (ys, ret)) :
    (∀ y ∈ ys, firstRef y = some (.str r)) ∧ firstRef ret = some (.str r) := by
  rw [refGenRun_strHead] at h
  cases rest with
  | nil =>
    cases tr <;>
      simp only [noFallbackTrace, if_true, if_false, Bool.false_eq_true,
        Except.ok.injEq, Prod.mk.injEq] at h <;>
      rcases h with ⟨h1, h2⟩ <;> subst h1 <;> subst h2 <;>
      exact ⟨by simp [firstRef], rfl⟩
  | cons fb tail =>
    by_cases hu : isUndef fb = true
    · simp only [hu, if_true] at h
      cases tr <;>
        simp only [noFallbackTrace, if_true, if_false, Bool.false_eq_true,
          Except.ok.injEq, Prod.mk.injEq] at h <;>
        rcases h with ⟨h1, h2⟩ <;> subst h1 <;> subst h2 <;>
        exact ⟨by simp [firstRef], rfl⟩
    · simp only [hu, Bool.false_eq_true, if_false] at h
      cases hp : parserRun sch fb tr (rp ++ [PathElem.n 1]) with
      | error e => rw [hp] at h; simp [refFallbackCombine] at h
      | ok it =>
        rcases it with ⟨i, t⟩
        rw [hp] at h
        cases tr <;>
          simp only [refFallbackCombine, if_true, if_false, Bool.false_eq_true,
            Except.ok.injEq, Prod.mk.injEq] at h <;>
          rcases h with ⟨h1, h2⟩ <;> subst h1 <;> subst h2 <;>
          exact ⟨by simp [firstRef], rfl⟩

/-- Witness for C4 at a concrete construct with a transformed fallback. -/
theorem c4_witness :
    firstRef (Val.getObj (.arr [.str "a", .str "x"])) = some (.str "a") ∧
    firstRef (Val.getObj (.arr [.str "a", .str "T:x"])) = some (.str "a") :=
  ⟨(c4_reference_verbatim (.string ⟨none, some "T:"⟩) "a" [.str "x"] true [PathElem.s "$GET"]
      [.getObj (.arr [.str "a", .str "x"])] (.getObj (.arr [.str "a", .str "T:x"])) rfl).1
      _ (List.mem_singleton_self _),
   (c4_reference_verbatim (.string ⟨none, some "T:"⟩) "a" [.str "x"] true [PathElem.s "$GET"]
      [.getObj (.arr [.str "a", .str "x"])] (.getObj (.arr [.str "a", .str "T:x"])) rfl).2⟩

/-- Claim C5: a reference construct's fallback is parsed by the general
value parser against the same schema node, at the fallback's value path,
with the reference extension installed (first conjunct: the generator's
trace is exactly the combination of that recursive parse); consequently
fallback chains of arbitrary depth are accepted (second conjunct: for any
base value every parse of which succeeds, the depth-`k` chain of reference
constructs ending in that base parses successfully for every `k`). -/
theorem c5_fallback_recursion :
    (∀ (sch : Schema) (r : String) (fb : Val) (tr : Bool) (rp : List PathElem),
      isUndef fb = false →
      refGenRun sch (.arr [.str r, fb]) tr rp =
        refFallbackCombine tr r (parserRun sch fb tr (rp ++ [PathElem.n 1])))
  ∧ (∀ (sch : Schema) (base : Val),
      (∀ p, isOkE (parserRun sch base true p) = true) →
      ∀ (k : Nat) (p : List PathElem),
        isOkE (parserRun sch (refChainFrom base k) true p) = true) := by
  constructor
  · intro sch r fb tr rp h
    rw [refGenRun_strHead]
    simp only [h, Bool.false_eq_true, if_false]
  · intro sch base hbase k
    induction k with
    | zero => exact hbase
    | succ k ih =>
      intro p
      rw [show refChainFrom base (k + 1) = .getObj (.arr [.str "ref", refChainFrom base k])
            from rfl,
          parserRun_getObjArr, refGenRun_strHead]
      by_cases hu : isUndef (refChainFrom base k) = true
      · simp only [hu, if_true]
        cases refChainFrom base k <;> simp_all [isUndef, noFallbackTrace, isOkE]
      · simp only [hu, Bool.false_eq_true, if_false]
        rcases (isOkE_iff _).1 (ih (p ++ [PathElem.s "$GET"] ++ [PathElem.n 1])) with ⟨x, hx⟩
        rcases x with ⟨i, t⟩
        rw [hx]
        simp [refFallbackCombine, isOkE]

/-- Witness for C5: a depth-3 chain over a string schema parses
successfully, and a concrete fallback parse is combined into the trace. -/
theorem c5_witness :
    refGenRun (.string noProps) (.arr [.str "a", .str "x"]) true [] =
      refFallbackCombine true "a" (parserRun (.string noProps) (.str "x") true ([] ++ [PathElem.n 1]))
  ∧ isOkE (parserRun (.string noProps) (refChainFrom (.str "v") 3) true []) = true :=
  ⟨c5_fallback_recursion.1 (.string noProps) "a" (.str "x") true [] rfl,
   c5_fallback_recursion.2 (.string noProps) (.str "v") (fun _ => rfl) 3 []⟩

/-- Claim C9: for every malformed reference construct (defined `$GET` entry
whose payload has a bad head), the call to `parseReferenceExtension` itself
returns normally with `isExtension: true` and the captured generator data —
the function is total and cannot throw — and the `InvalidAttributeInput`
error arises only when the returned generator is run (its trace is an error
raised on the first advancement, before any value is yielded); a caller
that never advances the generator observes no error. -/
theorem c9_lazy_error (sch : Schema) (references : Val) (tr : Bool) (vp : List PathElem)
    (h1 : isUndef references = false) (h2 : malformedHead references = true) :
    parseReferenceExtension sch (.getObj references) tr vp =
      .isExtension ⟨sch, references, tr, vp⟩
  ∧ ∃ p, RefGen.run ⟨sch, references, tr, vp⟩ = .error (.invalidAttributeInput p) := by
  constructor
  · cases references <;> first | rfl | simp [isUndef] at h1
  · cases references with
    | undef => simp [isUndef] at h1
    | arr elems =>
      cases elems with
      | nil => exact ⟨_, rfl⟩
      | cons hd tl =>
        cases hd with
        | str s => simp [malformedHead] at h2
        | undef => exact ⟨_, rfl⟩
        | num _ => exact ⟨_, rfl⟩
        | arr _ => exact ⟨_, rfl⟩
        | getObj _ => exact ⟨_, rfl⟩
        | obj _ => exact ⟨_, rfl⟩
    | str _ => exact ⟨_, rfl⟩
    | num _ => exact ⟨_, rfl⟩
    | getObj _ => exact ⟨_, rfl⟩
    | obj _ => exact ⟨_, rfl⟩

/-- Witness for C9 at a concrete malformed construct (`$GET` payload a
number): recognized as an extension, erroring only when run. -/
theorem c9_witness :
    parseReferenceExtension (.string noProps) (.getObj (.num 5)) true [] =
      .isExtension ⟨.string noProps, .num 5, true, []⟩
  ∧ ∃ p, RefGen.run ⟨.string noProps, .num 5, true, []⟩ = .error (.invalidAttributeInput p) :=
  c9_lazy_error (.string noProps) (.num 5) true [] rfl rfl

/-- Claim C1 counterexample: the construct `{ $GET: ['a', 'b', 'c'] }` is
recognized as a reference construct and its `$GET` payload is a three-element
array — not an ordered pair of one or two elements, hence malformed per the
claim — yet advancing the generator raises no error: it succeeds, silently
dropping the third element. -/
theorem c1_counterexample :
    isRefConstruct (Val.getObj (.arr [.str "a", .str "b", .str "c"])) = true
  ∧ [Val.str "a", .str "b", .str "c"].length = 3
  ∧ RefGen.run ⟨.string noProps, .arr [.str "a", .str "b", .str "c"], true, []⟩ =
      .ok ([.getObj (.arr [.str "a", .str "b"])], .getObj (.arr [.str "a", .str "b"])) :=
  ⟨rfl, rfl, rfl⟩

/-- Claim C1 (amended): advancing the generator raises `InvalidAttributeInput`
carrying the computed input path if the `$GET` payload is not an array
(conjunct 1) or its first element is not a string (conjunct 2) — arrays of
three or more elements with a string head are not rejected; conversely
(conjunct 3), an `InvalidAttributeInput` raised by the generator comes either
from such a malformed head or from the recursive parse of the fallback
element. -/
theorem c1_amended_error_iff (sch : Schema) (references : Val) (tr : Bool) (vp : List PathElem) :
    (isArr references = false →
      refGenRun sch references tr (vp ++ [PathElem.s "$GET"]) =
        .error (.invalidAttributeInput (formatArrayPath (vp ++ [PathElem.s "$GET"]))))
  ∧ (∀ elems, references = .arr elems → isStrHead elems = false →
      refGenRun sch references tr (vp ++ [PathElem.s "$GET"]) =
        .error (.invalidAttributeInput
          (formatArrayPath (vp ++ [PathElem.s "$GET"] ++ [PathElem.n 0]))))
  ∧ (∀ p, refGenRun sch references tr (vp ++ [PathElem.s "$GET"]) =
        .error (.invalidAttributeInput p) →
      malformedHead references = true ∨
        ∃ s fb tail, references = .arr (.str s :: fb :: tail) ∧
          parserRun sch fb tr (vp ++ [PathElem.s "$GET"] ++ [PathElem.n 1]) =
            .error (.invalidAttributeInput p)) := by
  refine ⟨?_, ?_, ?_⟩
  · intro h
    cases references <;> first | rfl | simp [isArr] at h
  · intro elems heq hhead
    subst heq
    cases elems with
    | nil => rfl
    | cons hd tl =>
      cases hd <;> first | rfl | simp [isStrHead] at hhead
  · intro p h
    cases references with
    | arr elems =>
      cases elems with
      | nil => exact Or.inl rfl
      | cons hd tl =>
        cases hd with
        | str s =>
          rw [refGenRun_strHead] at h
          cases tl with
          | nil => simp at h
          | cons fb tl2 =>
            by_cases hu : isUndef fb = true
            · simp [hu] at h
            · simp only [hu, Bool.false_eq_true, if_false] at h
              cases hp : parserRun sch fb tr (vp ++ [PathElem.s "$GET"] ++ [PathElem.n 1]) with
              | error e =>
                rw [hp] at h
                simp only [refFallbackCombine, Except.error.injEq] at h
                exact Or.inr ⟨s, fb, tl2, rfl, by rw [hp, h]⟩
              | ok it =>
                rcases it with ⟨i, t⟩
                rw [hp] at h
                cases tr <;> simp [refFallbackCombine] at h
        | undef => exact Or.inl rfl
        | num _ => exact Or.inl rfl
        | arr _ => exact Or.inl rfl
        | getObj _ => exact Or.inl rfl
        | obj _ => exact Or.inl rfl
    | undef => exact Or.inl rfl
    | str _ => exact Or.inl rfl
    | num _ => exact Or.inl rfl
    | getObj _ => exact Or.inl rfl
    | obj _ => exact Or.inl rfl

/-- Witness for the amended C1 at a concrete non-array payload: the error
carries the computed input path. -/
theorem c1_amended_witness :
    refGenRun (.string noProps) (.num 7) true ([] ++ [PathElem.s "$GET"]) =
      .error (.invalidAttributeInput (formatArrayPath ([] ++ [PathElem.s "$GET"]))) :=
  (c1_amended_error_iff (.string noProps) (.num 7) true []).1 rfl

end Dtb
